import Mathlib

/-!
Verification development for the gollum file producer
(`producer/file.go` helpers: `fileState`, `fileRotateConfig`,
`needsRotate`, `compressAndCloseLog`, `flush`).

The Go source is shallowly embedded: machine integers become `Int`/`Nat`,
`time.Time`/`time.Duration` become `Int` nanosecond counts, the filesystem
becomes a finite map from path strings to file data, and the effectful
collaborators (`os.File.Stat`, `os.OpenFile`, `os.Remove`, the I/O copy
loop) are driven by explicit outcome parameters supplied by the
environment.
-/

namespace Gollum

/-! ## Go `path/filepath` (Unix rules), as used by `compressAndCloseLog`

`compressAndCloseLog` derives the compression target with
`filepath.Dir`, `filepath.Ext` and `filepath.Base`.  These are embedded
below over `List Char`; on Unix the path separator is `'/'` and there is
no volume name. -/

/-- Helper for `goExt`: scans the reversed path, accumulating the
characters after a candidate dot; mirrors the loop in Go's
`filepath.Ext`, which walks backwards until a `'.'` or a separator. -/
def extGo : List Char → List Char → List Char
  | _, [] => []
  | acc, c :: rest =>
    if c = '/' then []
    else if c = '.' then c :: acc
    else extGo (c :: acc) rest

/-- Go `filepath.Ext`: the suffix beginning at the final dot in the final
slash-separated element; empty if there is no dot. -/
def goExt (s : String) : String := ⟨extGo [] s.data.reverse⟩

/-- Go `filepath.Base`: strip trailing separators, keep the last element;
`"."` for the empty path, `"/"` if the path is all separators. -/
def goBase (s : String) : String :=
  if s.data = [] then "."
  else
    let r := s.data.reverse.dropWhile (fun c => c = '/')
    let b := (r.takeWhile (fun c => ¬ (c = '/'))).reverse
    if b = [] then "/" else ⟨b⟩

/-- One `".."` backtrack inside Go `filepath.Clean`: with the output
buffer held in reverse, drop the last element (`out.w--` followed by the
scan down to `dotdot` or a separator). -/
def popElem (dotdot : Nat) : List Char → List Char
  | [] => []
  | c :: rest => if rest.length > dotdot ∧ ¬ (c = '/') then popElem dotdot rest else rest

/-- `'/' :: out` when Go's `Clean` would emit a separator before the
next element, `out` otherwise. -/
def sepOut (rooted : Bool) (out : List Char) : List Char :=
  if (rooted ∧ out.length ≠ 1) ∨ (¬ rooted ∧ out.length ≠ 0) then '/' :: out else out

/-- The main loop of Go `filepath.Clean` (Unix, no volume name).  `out`
is the output buffer in reverse order, `dotdot` the index the `".."`
backtracking may not cross.  The boolean mode is `true` while copying
the interior of an element (Go's inner copy loop in the default case),
`false` at an element boundary. -/
def cleanLoop (rooted : Bool) : Bool → Nat → List Char → List Char → List Char
  | _, _, out, [] => out
  | true, dotdot, out, c :: rest =>
    if c = '/' then cleanLoop rooted false dotdot out rest
    else cleanLoop rooted true dotdot (c :: out) rest
  | false, dotdot, out, '/' :: rest => cleanLoop rooted false dotdot out rest
  | false, dotdot, out, '.' :: rest =>
    match rest with
    | [] => out
    | '/' :: r => cleanLoop rooted false dotdot out r
    | '.' :: r2 =>
      if r2 = [] ∨ r2.head? = some '/' then
        -- a `".."` element
        if out.length > dotdot then
          cleanLoop rooted false dotdot (popElem dotdot out) r2
        else if ¬ rooted then
          let out1 := if out.length > 0 then '/' :: out else out
          cleanLoop rooted false (out1.length + 2) ('.' :: '.' :: out1) r2
        else
          cleanLoop rooted false dotdot out r2
      else
        -- an element that merely starts with `".."`
        cleanLoop rooted true dotdot ('.' :: '.' :: sepOut rooted out) r2
    | c2 :: r2 =>
      -- an element that starts with `"."` followed by an ordinary char
      cleanLoop rooted true dotdot (c2 :: '.' :: sepOut rooted out) r2
  | false, dotdot, out, c :: rest =>
    cleanLoop rooted true dotdot (c :: sepOut rooted out) rest

/-- Go `filepath.Clean` (Unix). -/
def goClean (s : String) : String :=
  match s.data with
  | [] => "."
  | c :: rest =>
    let out :=
      if c = '/' then cleanLoop true false 1 ['/'] rest
      else cleanLoop false false 0 [] (c :: rest)
    if out = [] then "." else ⟨out.reverse⟩

/-- Go `filepath.Dir`: everything up to and including the final
separator, cleaned (`"."` when there is no separator). -/
def goDir (s : String) : String :=
  goClean ⟨(s.data.reverse.dropWhile (fun c => ¬ (c = '/'))).reverse⟩

/-- The target path computed by `compressAndCloseLog`:
`fmt.Sprintf("%s/%s.gz", sourceDir, sourceBase)` where `sourceBase` is
the base name with its `filepath.Ext` suffix sliced off. -/
def targetFileName (sourceFileName : String) : String :=
  let sourceDir := goDir sourceFileName
  let sourceExt := goExt sourceFileName
  let sourceBase := goBase sourceFileName
  let stem : String := ⟨sourceBase.data.take (sourceBase.data.length - sourceExt.data.length)⟩
  sourceDir ++ "/" ++ stem ++ ".gz"

/-! ## `fileState.needsRotate`

`time.Time` values are `Int` nanosecond instants.  `os.File.Stat` is
embedded as a per-handle `Except` result, and
`time.Date(now.Year(), now.Month(), now.Day(), atHour, atMinute, 0, 0, now.Location())`
as the environment function `rotateAtFor` giving the instant of today's
`atHour:atMinute:00`. -/

/-- The part of `os.FileInfo` that `needsRotate` consults. -/
structure FileStats where
  size : Int
  deriving DecidableEq

/-- An `*os.File` as seen by `needsRotate`: only its `Stat()` outcome
matters. -/
structure GoFile where
  statResult : Except String FileStats

/-- `fileState`, restricted to the fields `needsRotate` reads
(`file`, `fileCreated`). -/
structure fileState where
  file : Option GoFile
  fileCreated : Int

/-- `fileRotateConfig` from the source. -/
structure fileRotateConfig where
  timeout : Int
  sizeByte : Int
  atHour : Int
  atMinute : Int
  enabled : Bool
  compress : Bool
  deriving DecidableEq

/-- The ambient clock: `now` is the current instant,
`rotateAtFor h m` the instant of today's `h:m:00` in the current
location (the `time.Date` call in the source). -/
structure TimeEnv where
  now : Int
  rotateAtFor : Int → Int → Int

/-- `fileState.needsRotate`, translated clause by clause from the
source: nil-file check, `Stat` error propagation, `enabled`,
`forceRotate`, size (`>=`), age (`time.Since >=`), and the
time-of-day check `fileCreated.Sub(rotateAt).Minutes() < 0`. -/
def fileState.needsRotate (state : fileState) (rotate : fileRotateConfig)
    (forceRotate : Bool) (env : TimeEnv) : Bool × Option String :=
  match state.file with
  | none => (true, none)
  | some file =>
    match file.statResult with
    | .error err => (false, some err)
    | .ok stats =>
      if rotate.enabled = false then (false, none)
      else if forceRotate then (true, none)
      else if stats.size ≥ rotate.sizeByte then (true, none)
      else if env.now - state.fileCreated ≥ rotate.timeout then (true, none)
      else if rotate.atHour > -1 ∧ rotate.atMinute > -1 then
        let rotateAt := env.rotateAtFor rotate.atHour rotate.atMinute
        if state.fileCreated - rotateAt < 0 then (true, none) else (false, none)
      else (false, none)

/-! ## The filesystem model and `compressAndCloseLog`

File contents are abstracted to the list of messages they carry.  The
gzip codec is external library code; it is modelled as a lossless
wrapper: a complete gzip stream of payload `m` is `FileData.gz m`, a
stream cut off by a mid-copy error is `FileData.gzCut`.  Paths are
plain strings (no normalisation), so two handles alias exactly when
their path strings are equal. -/

/-- Message payload. -/
abbrev Msg := String

/-- Contents of one on-disk file. -/
inductive FileData where
  | plain (msgs : List Msg)
  | gz (msgs : List Msg)
  | gzCut (msgs : List Msg) (chunks : Nat)
  deriving DecidableEq

/-- Filesystem: path → contents, `none` when absent. -/
def FS := String → Option FileData

/-- Write/erase one path. -/
def fsUpdate (fs : FS) (p : String) (d : Option FileData) : FS :=
  fun q => if q = p then d else fs q

/-- What a read of the whole file through an open handle yields; the
compression input loop only ever reads plain log files (or a file just
truncated to empty). -/
def readMsgs (fs : FS) (p : String) : List Msg :=
  match fs p with
  | some (.plain m) => m
  | _ => []

/-- Decompressing a file: defined exactly on complete gzip streams. -/
def gunzip : Option FileData → Option (List Msg)
  | some (.gz m) => some m
  | _ => none

/-- Events sent to the logging side channel by `compressAndCloseLog`. -/
inductive LogEv where
  | compressOpenError
  | noteCompressing
  | warnCompressFailed
  | removeTargetError
  | removeSourceError
  deriving DecidableEq

/-- Outcome injected by the environment for one compression run:
`os.OpenFile` failing, the copy loop hitting a non-EOF error after
`chunks` chunks, or the copy reaching clean EOF; the booleans say
whether the respective `os.Remove` call succeeds. -/
inductive CompressOutcome where
  | openFail
  | midFail (chunks : Nat) (removeTargetOk : Bool)
  | copyDone (removeSourceOk : Bool)
  deriving DecidableEq

/-- `fileState.compressAndCloseLog`, step by step from the source:
derive the target name; open it `O_WRONLY|O_CREATE|O_TRUNC` (on
failure: log, close source, return); rewind the source and copy it
through the gzip writer in 1 MB chunks until an error; close
everything; on a non-EOF copy error log a warning and remove the
target (logging if that remove fails); otherwise remove the source
(logging if that fails).  Truncation happens before the copy reads, so
when the target path equals the source path the handle reads an empty
file. -/
def compressAndCloseLog (fs : FS) (sourceFileName : String)
    (outcome : CompressOutcome) : FS × List LogEv :=
  let target := targetFileName sourceFileName
  match outcome with
  | .openFail => (fs, [.compressOpenError])
  | .midFail chunks removeTargetOk =>
    let fs1 := fsUpdate fs target (some (.plain []))
    let input := readMsgs fs1 sourceFileName
    let fs2 := fsUpdate fs1 target (some (.gzCut input chunks))
    if removeTargetOk then
      (fsUpdate fs2 target none, [.noteCompressing, .warnCompressFailed])
    else
      (fs2, [.noteCompressing, .warnCompressFailed, .removeTargetError])
  | .copyDone removeSourceOk =>
    let fs1 := fsUpdate fs target (some (.plain []))
    let input := readMsgs fs1 sourceFileName
    let fs2 := fsUpdate fs1 target (some (.gz input))
    if removeSourceOk then
      (fsUpdate fs2 sourceFileName none, [.noteCompressing])
    else
      (fs2, [.noteCompressing, .removeSourceError])

/-! ## Rotation orchestration

The caller of `compressAndCloseLog` (the producer's rotation routine)
is not among the given source files; only the spec describes it. -/

/-- The sink as the rotation routine sees it: the filesystem, the path
of the active file (if one is open), and the buffered batch. -/
structure FileSinkModel where
  fs : FS
  activePath : Option String
  pending : List Msg

/-- Modelled from the spec: the rotation step of `checkAndRotate`
(spec §4.3), which is not among the given source files.  On rotation
it (a) flushes `pendingBatch` to the active file, (b) retires the
handle, (c) hands the retired handle to a compression task — embedded
here by running `compressAndCloseLog` with the environment-chosen
`outcome` — and (d) opens a fresh active file at `newPath`. -/
def rotateAndCompress (m : FileSinkModel) (newPath : String)
    (outcome : CompressOutcome) : FileSinkModel × List LogEv :=
  match m.activePath with
  | none =>
    ({ fs := fsUpdate m.fs newPath (some (.plain [])),
       activePath := some newPath, pending := m.pending }, [])
  | some old =>
    let fs1 := fsUpdate m.fs old (some (.plain (readMsgs m.fs old ++ m.pending)))
    let res := compressAndCloseLog fs1 old outcome
    ({ fs := fsUpdate res.1 newPath (some (.plain [])),
       activePath := some newPath, pending := [] }, res.2)

/-! ## `fileState.flush` (shutdown), small-step

`flush` runs `writeBatch(); batch.WaitForFlush(flushTimeout);
bgWriter.Wait(); file.Close()`.  The program counter below encodes
that statement sequence; `outstanding` is the `bgWriter` wait-group
counter (incremented by each spawned compression task, decremented on
its completion), and `bgWriter.Wait()` can only be passed when it is
zero.  Environment steps completing compression tasks interleave
freely. -/

/-- Program counter of `fileState.flush`. -/
inductive ShutPC where
  | start | wrote | waited | joined | done
  deriving DecidableEq

/-- State seen during shutdown. -/
structure ShutState where
  pending : List Msg
  fileMsgs : List Msg
  outstanding : Nat
  fileClosed : Bool
  pc : ShutPC
  deriving DecidableEq

/-- One step of the shutdown machine: the four statements of
`fileState.flush` in program order, plus the environment step of a
background compression task finishing (`bgWriter.Done()`). -/
inductive ShutStep : ShutState → ShutState → Prop where
  | writeBatch (s : ShutState) : s.pc = .start →
      ShutStep s { s with pending := [], fileMsgs := s.fileMsgs ++ s.pending, pc := .wrote }
  | waitForFlush (s : ShutState) : s.pc = .wrote →
      ShutStep s { s with pc := .waited }
  | bgWait (s : ShutState) : s.pc = .waited → s.outstanding = 0 →
      ShutStep s { s with pc := .joined }
  | closeFile (s : ShutState) : s.pc = .joined →
      ShutStep s { s with fileClosed := true, pc := .done }
  | compressionDone (s : ShutState) (n : Nat) : s.outstanding = n + 1 →
      ShutStep s { s with outstanding := n }

/-- Reachability along shutdown steps. -/
def ShutReach (s t : ShutState) : Prop := Relation.ReflTransGen ShutStep s t

/-- Inductive invariant of the shutdown machine, relative to the
initial state. -/
def ShutInv (init s : ShutState) : Prop :=
  (s.pc = .start → s.pending = init.pending ∧ s.fileMsgs = init.fileMsgs) ∧
  (s.pc ≠ .start → s.pending = [] ∧ s.fileMsgs = init.fileMsgs ++ init.pending) ∧
  ((s.pc = .joined ∨ s.pc = .done) → s.outstanding = 0) ∧
  (s.fileClosed = true ↔ s.pc = .done)

/-! ## `fileState.flush` (shutdown), functional form, for idempotence

For idempotence the second call happens after the first has completed,
when `bgWriter.Wait()` returns immediately, so shutdown is a plain
function of the sink state.  `os.File.Close` is embedded with its
standard-library semantics: a nil receiver or an already-closed file
yields an error (no panic), and the underlying descriptor is released
at most once (`fdReleases` counts releases). -/

/-- An `*os.File` handle for the shutdown path. -/
structure OsFile where
  closed : Bool
  deriving DecidableEq

/-- The sink state that `fileState.flush` touches. -/
structure FlushWorld where
  pending : List Msg
  fileMsgs : List Msg
  file : Option OsFile
  fdReleases : Nat
  errors : List String
  deriving DecidableEq

/-- `os.File.Close`: nil receiver → `ErrInvalid`; already closed →
`ErrClosed`; otherwise mark closed and release the descriptor.  No
branch panics and no branch releases a descriptor twice. -/
def osFileClose : Option OsFile → Nat → Option OsFile × Nat × Option String
  | none, rel => (none, rel, some "invalid argument")
  | some f, rel =>
    if f.closed then (some f, rel, some "file already closed")
    else (some { closed := true }, rel + 1, none)

/-- `fileState.writeBatch`: `batch.Flush(state.file, nil, onWriterError)`.
A write against a nil or closed file fails; the error is routed to
`onWriterError`, which logs it and reports non-fatal failure. -/
def writeBatchRun (w : FlushWorld) : FlushWorld :=
  match w.file with
  | some f =>
    if f.closed then { w with pending := [], errors := w.errors ++ ["File write error"] }
    else { w with pending := [], fileMsgs := w.fileMsgs ++ w.pending }
  | none => { w with pending := [], errors := w.errors ++ ["File write error"] }

/-- `fileState.flush`, functional: `writeBatch`, then
`batch.WaitForFlush` and `bgWriter.Wait()` (no state effect once all
compression tasks are done), then `state.file.Close()`. -/
def flushRun (w : FlushWorld) : FlushWorld :=
  let w1 := writeBatchRun w
  let r := osFileClose w1.file w1.fdReleases
  { w1 with file := r.1, fdReleases := r.2.1 }

/-- A filesystem holding exactly one plain file (used to instantiate
the theorems below on concrete inputs). -/
def fsSingle (p : String) (msgs : List Msg) : FS :=
  fsUpdate (fun _ => none) p (some (.plain msgs))

/-! ## Theorems -/

/-- **C7**: when no active file has been opened yet (`state.file == nil`),
`needsRotate` returns `(true, nil)`; this check is first, so it holds for
every configuration (including a disabled policy) and any `forceRotate`. -/
theorem c7_no_active_file_always_rotates (state : fileState) (rotate : fileRotateConfig)
    (forceRotate : Bool) (env : TimeEnv) (h : state.file = none) :
    fileState.needsRotate state rotate forceRotate env = (true, none) := by
  simp [fileState.needsRotate, h]

/-- Witness for C7: a concrete sink with no file, a disabled policy and
no force request still rotates. -/
theorem c7_no_active_file_always_rotates_witness :
    fileState.needsRotate ⟨none, 0⟩ ⟨3600, 1024, 5, 30, false, true⟩ false
      ⟨999, fun _ _ => 0⟩ = (true, none) :=
  c7_no_active_file_always_rotates _ _ _ _ rfl

/-- **C8**: when the active file's `Stat()` fails, `needsRotate`
returns `false` together with the propagated error, for every
configuration and any `forceRotate`. -/
theorem c8_stat_error_propagates (state : fileState) (rotate : fileRotateConfig)
    (forceRotate : Bool) (env : TimeEnv) (f : GoFile) (e : String)
    (hf : state.file = some f) (he : f.statResult = .error e) :
    fileState.needsRotate state rotate forceRotate env = (false, some e) := by
  simp [fileState.needsRotate, hf, he]

/-- Witness for C8: concrete stat failure with an enabled policy and a
force request still yields `(false, the error)`. -/
theorem c8_stat_error_propagates_witness :
    fileState.needsRotate ⟨some ⟨.error "stat failed"⟩, 0⟩ ⟨10, 10, 0, 0, true, true⟩ true
      ⟨999999, fun _ _ => 10⟩ = (false, some "stat failed") :=
  c8_stat_error_propagates _ _ _ _ _ _ rfl rfl

/-- Counterexample to **C4** as stated: a sink state with a disabled
policy but no active file yet is decided by the nil-file rule, which
precedes the disabled check, and `needsRotate` returns `(true, nil)`,
not `(false, nil)`. -/
theorem c4_counterexample :
    fileState.needsRotate ⟨none, 0⟩ ⟨0, 0, -1, -1, false, false⟩ true
      ⟨0, fun _ _ => 0⟩ = (true, none) ∧
    (⟨0, 0, -1, -1, false, false⟩ : fileRotateConfig).enabled = false := by
  exact ⟨rfl, rfl⟩

/-- **C4**, amended: for every sink state *with an active file whose
metadata is readable*, a disabled policy makes `needsRotate` return
`(false, nil)` even when every threshold is exceeded and even when
`forceRotate` is requested — the disabled check precedes the
`forceRotate` check. -/
theorem c4_disabled_no_rotation (state : fileState) (rotate : fileRotateConfig)
    (forceRotate : Bool) (env : TimeEnv) (f : GoFile) (st : FileStats)
    (hf : state.file = some f) (hst : f.statResult = .ok st)
    (hdis : rotate.enabled = false) :
    fileState.needsRotate state rotate forceRotate env = (false, none) := by
  simp [fileState.needsRotate, hf, hst, hdis]

/-- Witness for the amended C4: size, age and time-of-day thresholds
all exceeded and `forceRotate = true`, yet no rotation. -/
theorem c4_disabled_no_rotation_witness :
    fileState.needsRotate ⟨some ⟨.ok ⟨5000⟩⟩, 0⟩ ⟨10, 1024, 0, 0, false, true⟩ true
      ⟨1000000000, fun _ _ => 1000000000⟩ = (false, none) :=
  c4_disabled_no_rotation _ _ _ _ _ _ rfl rfl rfl

/-- **C5**: with the policy enabled, a readable active file and no
force request, reaching either inclusive threshold — size `≥ sizeByte`
or age `time.Since(fileCreated) ≥ timeout` — alone makes `needsRotate`
return `(true, nil)`, whatever the other settings. -/
theorem c5_size_or_age_triggers (state : fileState) (rotate : fileRotateConfig)
    (env : TimeEnv) (f : GoFile) (st : FileStats)
    (hf : state.file = some f) (hst : f.statResult = .ok st)
    (hen : rotate.enabled = true)
    (hthr : st.size ≥ rotate.sizeByte ∨ env.now - state.fileCreated ≥ rotate.timeout) :
    fileState.needsRotate state rotate false env = (true, none) := by
  rcases hthr with h | h
  · simp [fileState.needsRotate, hf, hst, hen, h]
  · by_cases hs : st.size ≥ rotate.sizeByte
    · simp [fileState.needsRotate, hf, hst, hen, hs]
    · simp [fileState.needsRotate, hf, hst, hen, hs, h]

/-- Witness for C5: the size threshold exactly at the boundary
(1024 ≥ 1024) triggers with a young file, and the age threshold exactly
at the boundary (100 ≥ 100) triggers with a small file. -/
theorem c5_size_or_age_triggers_witness :
    fileState.needsRotate ⟨some ⟨.ok ⟨1024⟩⟩, 0⟩ ⟨1000, 1024, -1, -1, true, true⟩ false
      ⟨5, fun _ _ => 0⟩ = (true, none) ∧
    fileState.needsRotate ⟨some ⟨.ok ⟨10⟩⟩, 0⟩ ⟨100, 1024, -1, -1, true, true⟩ false
      ⟨100, fun _ _ => 0⟩ = (true, none) :=
  ⟨c5_size_or_age_triggers _ _ _ _ _ rfl rfl rfl (Or.inl (by decide)),
   c5_size_or_age_triggers _ _ _ _ _ rfl rfl rfl (Or.inr (by decide))⟩

/-- **C6**: with the policy enabled, a readable active file, no force
request and neither the size nor the age threshold reached,
`needsRotate` returns `true` exactly when both `atHour` and `atMinute`
exceed the `-1` sentinel and the file's creation instant strictly
precedes today's scheduled instant `atHour:atMinute:00`
(`fileCreated.Sub(rotateAt).Minutes() < 0`); in every other case it
returns `false`.  The error is always `nil`. -/
theorem c6_time_of_day_rotation (state : fileState) (rotate : fileRotateConfig)
    (env : TimeEnv) (f : GoFile) (st : FileStats)
    (hf : state.file = some f) (hst : f.statResult = .ok st)
    (hen : rotate.enabled = true)
    (hsize : st.size < rotate.sizeByte)
    (hage : env.now - state.fileCreated < rotate.timeout) :
    fileState.needsRotate state rotate false env =
      (decide (rotate.atHour > -1 ∧ rotate.atMinute > -1 ∧
        state.fileCreated < env.rotateAtFor rotate.atHour rotate.atMinute), none) := by
  have hs : ¬ st.size ≥ rotate.sizeByte := not_le.mpr hsize
  have ha : ¬ env.now - state.fileCreated ≥ rotate.timeout := not_le.mpr hage
  by_cases hset : rotate.atHour > -1 ∧ rotate.atMinute > -1
  · by_cases hcr : state.fileCreated - env.rotateAtFor rotate.atHour rotate.atMinute < 0
    · have hlt : state.fileCreated < env.rotateAtFor rotate.atHour rotate.atMinute := by omega
      simp [fileState.needsRotate, hf, hst, hen, hs, ha, hset, hcr, hlt]
    · have hlt : ¬ state.fileCreated < env.rotateAtFor rotate.atHour rotate.atMinute := by omega
      simp [fileState.needsRotate, hf, hst, hen, hs, ha, hset, hcr, hlt]
  · have hd : decide (rotate.atHour > -1 ∧ rotate.atMinute > -1 ∧
        state.fileCreated < env.rotateAtFor rotate.atHour rotate.atMinute) = false :=
      decide_eq_false (fun hc => hset ⟨hc.1, hc.2.1⟩)
    simp [fileState.needsRotate, hf, hst, hen, hs, ha, hset, hd]

/-- Witness for C6: a file created at yesterday 23:59 checked after
today's 00:00 rotation instant rotates; with the hour sentinel `-1` the
same state does not. -/
theorem c6_time_of_day_rotation_witness :
    fileState.needsRotate ⟨some ⟨.ok ⟨10⟩⟩, -60⟩ ⟨1000000, 1024, 0, 0, true, true⟩ false
      ⟨60, fun _ _ => 0⟩ = (true, none) ∧
    fileState.needsRotate ⟨some ⟨.ok ⟨10⟩⟩, -60⟩ ⟨1000000, 1024, -1, 0, true, true⟩ false
      ⟨60, fun _ _ => 0⟩ = (false, none) := by
  constructor
  · have h := c6_time_of_day_rotation ⟨some ⟨.ok ⟨10⟩⟩, -60⟩ ⟨1000000, 1024, 0, 0, true, true⟩
      ⟨60, fun _ _ => 0⟩ ⟨.ok ⟨10⟩⟩ ⟨10⟩ rfl rfl rfl (by decide) (by decide)
    simpa using h
  · have h := c6_time_of_day_rotation ⟨some ⟨.ok ⟨10⟩⟩, -60⟩ ⟨1000000, 1024, -1, 0, true, true⟩
      ⟨60, fun _ _ => 0⟩ ⟨.ok ⟨10⟩⟩ ⟨10⟩ rfl rfl rfl (by decide) (by decide)
    simpa using h

/-- **C9**: shutdown is idempotent.  Running `fileState.flush` a second
time after it has completed releases no file descriptor again, leaves
the (already closed) handle unchanged, and writes no further message —
`os.File.Close` on a nil or already-closed file merely returns an
error, and the failed re-flush is routed to `onWriterError`; no branch
panics. -/
theorem c9_shutdown_idempotent (w : FlushWorld) :
    (flushRun (flushRun w)).fdReleases = (flushRun w).fdReleases ∧
    (flushRun (flushRun w)).file = (flushRun w).file ∧
    (flushRun (flushRun w)).fileMsgs = (flushRun w).fileMsgs := by
  rcases w with ⟨p, m, f, r, e⟩
  match f with
  | none => simp [flushRun, writeBatchRun, osFileClose]
  | some ⟨true⟩ => simp [flushRun, writeBatchRun, osFileClose]
  | some ⟨false⟩ => simp [flushRun, writeBatchRun, osFileClose]

/-- The shutdown invariant holds initially. -/
theorem shutInv_init (init : ShutState) (hpc : init.pc = .start)
    (hcl : init.fileClosed = false) : ShutInv init init := by
  refine ⟨fun _ => ⟨rfl, rfl⟩, fun h => absurd hpc h, fun h => ?_, ?_⟩
  · rcases h with h | h <;> rw [hpc] at h <;> cases h
  · rw [hpc, hcl]; simp

/-- The shutdown invariant is preserved by every step. -/
theorem shutInv_step {init s t : ShutState} (hinv : ShutInv init s)
    (hstep : ShutStep s t) : ShutInv init t := by
  obtain ⟨h1, h2, h3, h4⟩ := hinv
  unfold ShutInv
  cases hstep with
  | writeBatch hpc =>
    obtain ⟨hp, hm⟩ := h1 hpc
    refine ⟨fun h => (by cases h), fun _ => ⟨rfl, (by rw [hp, hm])⟩, fun h => ?_, ?_⟩
    · rcases h with h | h <;> cases h
    · have : s.fileClosed = false := by
        cases hcl : s.fileClosed
        · rfl
        · have := h4.mp hcl; rw [hpc] at this; cases this
      simp [this]
  | waitForFlush hpc =>
    have hns : s.pc ≠ .start := by rw [hpc]; intro h; cases h
    obtain ⟨hp, hm⟩ := h2 hns
    refine ⟨fun h => (by cases h), fun _ => ⟨hp, hm⟩, fun h => ?_, ?_⟩
    · rcases h with h | h <;> cases h
    · have : s.fileClosed = false := by
        cases hcl : s.fileClosed
        · rfl
        · have := h4.mp hcl; rw [hpc] at this; cases this
      simp [this]
  | bgWait hpc hout =>
    have hns : s.pc ≠ .start := by rw [hpc]; intro h; cases h
    obtain ⟨hp, hm⟩ := h2 hns
    refine ⟨fun h => (by cases h), fun _ => ⟨hp, hm⟩, fun _ => hout, ?_⟩
    · have : s.fileClosed = false := by
        cases hcl : s.fileClosed
        · rfl
        · have := h4.mp hcl; rw [hpc] at this; cases this
      simp [this]
  | closeFile hpc =>
    have hns : s.pc ≠ .start := by rw [hpc]; intro h; cases h
    obtain ⟨hp, hm⟩ := h2 hns
    exact ⟨fun h => (by cases h), fun _ => ⟨hp, hm⟩, fun _ => h3 (Or.inl hpc), (by simp)⟩
  | compressionDone n hout =>
    refine ⟨h1, h2, fun h => ?_, h4⟩
    · have := h3 h; omega

/-- The shutdown invariant holds in every reachable state. -/
theorem shutInv_reach {init s : ShutState} (hpc : init.pc = .start)
    (hcl : init.fileClosed = false) (hr : ShutReach init s) : ShutInv init s := by
  induction hr with
  | refl => exact shutInv_init init hpc hcl
  | tail _ hbc ih => exact shutInv_step ih hbc

/-- **C2**: along every execution of `fileState.flush` interleaved with
compression-task completions, the file is closed only in the final
program state, after the pending batch has been flushed and after the
`bgWriter` counter has reached zero; and when `flush` returns
(`pc = done`) every outstanding compression task has completed, even
though the flush itself may have settled immediately. -/
theorem c2_shutdown_ordering (init s : ShutState) (hpc : init.pc = .start)
    (hcl : init.fileClosed = false) (hr : ShutReach init s) :
    (s.fileClosed = true → s.pc = .done ∧ s.outstanding = 0 ∧ s.pending = [] ∧
      s.fileMsgs = init.fileMsgs ++ init.pending) ∧
    (s.pc = .done → s.fileClosed = true ∧ s.outstanding = 0 ∧ s.pending = [] ∧
      s.fileMsgs = init.fileMsgs ++ init.pending) := by
  obtain ⟨h1, h2, h3, h4⟩ := shutInv_reach hpc hcl hr
  have hdone : s.pc = .done → s.outstanding = 0 ∧ s.pending = [] ∧
      s.fileMsgs = init.fileMsgs ++ init.pending := by
    intro hd
    have hns : s.pc ≠ .start := by rw [hd]; intro h; cases h
    obtain ⟨hp, hm⟩ := h2 hns
    exact ⟨h3 (Or.inr hd), hp, hm⟩
  exact ⟨fun hclosed => ⟨h4.mp hclosed, hdone (h4.mp hclosed)⟩,
    fun hd => ⟨h4.mpr hd, hdone hd⟩⟩

/-- Witness for C2: a concrete run with one message pending and one
slow compression task outstanding — the batch is written, the flush
wait passes, the task completes, `bgWriter.Wait` passes, the file is
closed — and the theorem's conclusions evaluate at its final state. -/
theorem c2_shutdown_ordering_witness :
    (⟨[], ["m"], 0, true, .done⟩ : ShutState).fileClosed = true ∧
    (⟨[], ["m"], 0, true, .done⟩ : ShutState).outstanding = 0 ∧
    (⟨[], ["m"], 0, true, .done⟩ : ShutState).pending = [] ∧
    (⟨[], ["m"], 0, true, .done⟩ : ShutState).fileMsgs =
      (⟨["m"], [], 1, false, .start⟩ : ShutState).fileMsgs ++
      (⟨["m"], [], 1, false, .start⟩ : ShutState).pending := by
  have s1 : ShutStep ⟨["m"], [], 1, false, .start⟩ ⟨[], ["m"], 1, false, .wrote⟩ :=
    ShutStep.writeBatch _ rfl
  have s2 : ShutStep ⟨[], ["m"], 1, false, .wrote⟩ ⟨[], ["m"], 1, false, .waited⟩ :=
    ShutStep.waitForFlush _ rfl
  have s3 : ShutStep ⟨[], ["m"], 1, false, .waited⟩ ⟨[], ["m"], 0, false, .waited⟩ :=
    ShutStep.compressionDone _ 0 rfl
  have s4 : ShutStep ⟨[], ["m"], 0, false, .waited⟩ ⟨[], ["m"], 0, false, .joined⟩ :=
    ShutStep.bgWait _ rfl rfl
  have s5 : ShutStep ⟨[], ["m"], 0, false, .joined⟩ ⟨[], ["m"], 0, true, .done⟩ :=
    ShutStep.closeFile _ rfl
  have hr : ShutReach ⟨["m"], [], 1, false, .start⟩ ⟨[], ["m"], 0, true, .done⟩ :=
    .head s1 (.head s2 (.head s3 (.head s4 (.head s5 .refl))))
  exact (c2_shutdown_ordering _ _ rfl rfl hr).2 rfl

/-- Counterexample to **C3** as stated: for a retired file whose name
already ends in `".gz"` the derived target path is the source path
itself, so on a mid-stream failure `os.Remove(targetFileName)` deletes
the original retired file — it does not still exist. -/
theorem c3_counterexample :
    (compressAndCloseLog (fsSingle "/logs/app.gz" ["m1"]) "/logs/app.gz"
      (.midFail 0 true)).1 "/logs/app.gz" = none ∧
    (fsSingle "/logs/app.gz" ["m1"]) "/logs/app.gz" = some (.plain ["m1"]) := by
  exact ⟨(by decide), (by decide)⟩

/-- **C3**, amended: for every compression run whose derived target
path differs from the source path, a mid-stream (non-EOF) failure
logs a warning, deletes the partially written target — logging an
error if that deletion itself fails — and returns without deleting the
original retired file, which keeps its contents. -/
theorem c3_midstream_failure_preserves_source (fs : FS) (src : String) (msgs : List Msg)
    (chunks : Nat) (hsrc : fs src = some (.plain msgs))
    (hne : targetFileName src ≠ src) :
    (compressAndCloseLog fs src (.midFail chunks true)).1 src = some (.plain msgs) ∧
    (compressAndCloseLog fs src (.midFail chunks true)).1 (targetFileName src) = none ∧
    (compressAndCloseLog fs src (.midFail chunks true)).2 =
      [.noteCompressing, .warnCompressFailed] ∧
    (compressAndCloseLog fs src (.midFail chunks false)).1 src = some (.plain msgs) ∧
    (compressAndCloseLog fs src (.midFail chunks false)).2 =
      [.noteCompressing, .warnCompressFailed, .removeTargetError] := by
  have hne' : ¬ (src = targetFileName src) := fun h => hne h.symm
  refine ⟨?_, ?_, rfl, ?_, rfl⟩ <;>
    simp [compressAndCloseLog, fsUpdate, hne', hsrc]

/-- Witness for the amended C3: a concrete `.log` file survives a
mid-stream failure and the partial `.gz` is removed. -/
theorem c3_midstream_failure_preserves_source_witness :
    (compressAndCloseLog (fsSingle "/logs/app.log" ["a", "b"]) "/logs/app.log"
      (.midFail 1 true)).1 "/logs/app.log" = some (.plain ["a", "b"]) ∧
    (compressAndCloseLog (fsSingle "/logs/app.log" ["a", "b"]) "/logs/app.log"
      (.midFail 1 true)).1 (targetFileName "/logs/app.log") = none ∧
    (compressAndCloseLog (fsSingle "/logs/app.log" ["a", "b"]) "/logs/app.log"
      (.midFail 1 true)).2 = [.noteCompressing, .warnCompressFailed] ∧
    (compressAndCloseLog (fsSingle "/logs/app.log" ["a", "b"]) "/logs/app.log"
      (.midFail 1 false)).1 "/logs/app.log" = some (.plain ["a", "b"]) ∧
    (compressAndCloseLog (fsSingle "/logs/app.log" ["a", "b"]) "/logs/app.log"
      (.midFail 1 false)).2 =
      [.noteCompressing, .warnCompressFailed, .removeTargetError] :=
  c3_midstream_failure_preserves_source _ _ _ _ (by decide) (by decide)

/-- Counterexample to **C1** as stated: rotating out an active file
named `"/logs/app.gz"` holding the flushed message `"m1"`, with the
compression run reaching clean end-of-stream (the log shows the
success path: a note and no warning), leaves nothing at the archived
target path — the flushed message is not recoverable. -/
theorem c1_counterexample :
    (rotateAndCompress ⟨fsSingle "/logs/app.gz" ["m1"], some "/logs/app.gz", []⟩
      "/logs/new.log" (.copyDone true)).1.fs (targetFileName "/logs/app.gz") = none ∧
    (rotateAndCompress ⟨fsSingle "/logs/app.gz" ["m1"], some "/logs/app.gz", []⟩
      "/logs/new.log" (.copyDone true)).2 = [.noteCompressing] := by
  exact ⟨(by decide), (by decide)⟩

/-- **C1**, amended: for every rotation of an active file whose derived
target path differs from its own path, once the compression run
reaches clean end-of-stream the archived `.gz` file decompresses to
exactly the messages flushed to the file before it was retired —
the previous contents followed by the pending batch, in order, with no
message duplicated or dropped — and the new active file starts
empty. -/
theorem c1_roundtrip_across_rotation (fs : FS) (old newP : String)
    (oldMsgs pending : List Msg) (removeOk : Bool)
    (hold : fs old = some (.plain oldMsgs))
    (hne : targetFileName old ≠ old)
    (hnew : newP ≠ targetFileName old) :
    gunzip ((rotateAndCompress ⟨fs, some old, pending⟩ newP (.copyDone removeOk)).1.fs
      (targetFileName old)) = some (oldMsgs ++ pending) ∧
    (rotateAndCompress ⟨fs, some old, pending⟩ newP (.copyDone removeOk)).1.fs newP =
      some (.plain []) := by
  have hne' : ¬ (old = targetFileName old) := fun h => hne h.symm
  have hnew' : ¬ (targetFileName old = newP) := fun h => hnew h.symm
  cases removeOk <;>
    simp [rotateAndCompress, compressAndCloseLog, fsUpdate, readMsgs, gunzip,
      hold, hne', hne, hnew, hnew']

/-- Witness for the amended C1: one old message and one pending message
end up, in order, in the archive; the fresh active file is empty. -/
theorem c1_roundtrip_across_rotation_witness :
    gunzip ((rotateAndCompress ⟨fsSingle "/logs/app.log" ["m1"], some "/logs/app.log", ["m2"]⟩
      "/logs/app.log" (.copyDone true)).1.fs (targetFileName "/logs/app.log")) =
      some (["m1"] ++ ["m2"]) ∧
    (rotateAndCompress ⟨fsSingle "/logs/app.log" ["m1"], some "/logs/app.log", ["m2"]⟩
      "/logs/app.log" (.copyDone true)).1.fs "/logs/app.log" = some (.plain []) :=
  c1_roundtrip_across_rotation _ _ _ _ _ _ (by decide) (by decide) (by decide)

/-- Shape of the `filepath.Ext` scan: on the reversed path it either
finds no dot before a separator (empty extension) or finds one after a
run `mid` of non-separator, non-dot characters, and the extension is
the dot followed by `mid` put back in path order. -/
theorem extGo_shape (rev : List Char) : ∀ acc : List Char,
    extGo acc rev = [] ∨
    ∃ mid rest2, rev = mid ++ '.' :: rest2 ∧ (∀ c ∈ mid, ¬ c = '/' ∧ ¬ c = '.') ∧
      extGo acc rev = '.' :: (mid.reverse ++ acc) := by
  induction rev with
  | nil => intro acc; left; rfl
  | cons c rest ih =>
    intro acc
    by_cases hsep : c = '/'
    · left; simp [extGo, hsep]
    · by_cases hdot : c = '.'
      · subst hdot
        right
        exact ⟨[], rest, rfl, (by simp), (by simp [extGo])⟩
      · rcases ih (c :: acc) with h | ⟨mid, rest2, hrev, hmem, heq⟩
        · left; simp [extGo, hsep, hdot, h]
        · right
          refine ⟨c :: mid, rest2, (by simp [hrev]), ?_, ?_⟩
          · intro x hx
            rcases List.mem_cons.mp hx with rfl | hx
            · exact ⟨hsep, hdot⟩
            · exact hmem x hx
          · simp [extGo, hsep, hdot, heq]

/-- A reversed path starting `'z' :: 'g' :: '.'` has extension `".gz"`. -/
theorem extGo_gz (l : List Char) : extGo [] ('z' :: 'g' :: '.' :: l) = ['.', 'g', 'z'] := rfl

/-- Every path produced by `targetFileName` has extension `".gz"`. -/
theorem goExt_targetFileName (s : String) : goExt (targetFileName s) = ".gz" := by
  apply String.ext
  show extGo [] (targetFileName s).data.reverse = ['.', 'g', 'z']
  have h : (targetFileName s).data =
      (goDir s ++ "/" ++
        (⟨(goBase s).data.take ((goBase s).data.length - (goExt s).data.length)⟩ : String)).data ++
      ['.', 'g', 'z'] := rfl
  rw [h, List.reverse_append]
  exact extGo_gz _

/-- When a path's extension is nonempty, its base name ends in that
extension, and slicing the extension off the base and appending it
back restores the base; for a path in `dir ++ "/" ++ base` form with
extension `".gz"` the derived target is therefore the path itself. -/
theorem targetFileName_eq_self (s : String) (hext : goExt s = ".gz")
    (hsplit : goDir s ++ "/" ++ goBase s = s) : targetFileName s = s := by
  have hdata : extGo [] s.data.reverse = ['.', 'g', 'z'] := congrArg String.data hext
  rcases extGo_shape s.data.reverse [] with h | ⟨mid, rest2, hrev, hmem, heq⟩
  · rw [h] at hdata; cases hdata
  · rw [heq] at hdata
    have hmid : mid = ['z', 'g'] := by
      have h1 : mid.reverse = ['g', 'z'] := by simpa using hdata
      have h2 := congrArg List.reverse h1
      simpa using h2
    subst hmid
    have hs : s.data = rest2.reverse ++ ['.', 'g', 'z'] := by
      have h2 := congrArg List.reverse hrev
      simp at h2
      simpa [List.append_assoc] using h2
    have hbase : (goBase s).data =
        (rest2.takeWhile (fun c => decide (¬ (c = '/')))).reverse ++ ['.', 'g', 'z'] := by
      have hne : ¬ (s.data = []) := by simp [hs]
      simp only [goBase, hne, if_false, hrev]
      simp [List.dropWhile, List.takeWhile]
    have hstem : (goBase s).data.take ((goBase s).data.length - (goExt s).data.length) =
        (rest2.takeWhile (fun c => decide (¬ (c = '/')))).reverse := by
      have hextd : (goExt s).data = ['.', 'g', 'z'] := congrArg String.data hext
      rw [hbase, hextd]
      simp [List.take_left]
    apply String.ext
    have htarget : (targetFileName s).data =
        ((goDir s).data ++ ['/'] ++
          (goBase s).data.take ((goBase s).data.length - (goExt s).data.length)) ++
        ['.', 'g', 'z'] := rfl
    have hsplitd : ((goDir s).data ++ ['/']) ++ (goBase s).data = s.data :=
      congrArg String.data hsplit
    rw [htarget, hstem]
    rw [← hsplitd, hbase]
    simp [List.append_assoc]

/-- **C10**: the compression target is the source with its extension
replaced by `".gz"`.  For a retired file already ending in `".gz"` (in
canonical `dir/base` form) the target path *is* the source path, and
the worker then opens the retired file itself with `O_TRUNC`,
destroying its contents before the copy loop reads: even on the success
path the "archive" holds the gzip of an empty stream.  The derivation
is collision-free exactly for sources whose extension is not `".gz"`. -/
theorem c10_gz_extension_collision :
    (∀ s : String, goExt s = ".gz" → goDir s ++ "/" ++ goBase s = s →
      targetFileName s = s) ∧
    (∀ s : String, goExt s ≠ ".gz" → targetFileName s ≠ s) ∧
    (∀ (fs : FS) (s : String) (msgs : List Msg), targetFileName s = s →
      fs s = some (.plain msgs) →
      (compressAndCloseLog fs s (.copyDone false)).1 s = some (.gz [])) := by
  refine ⟨targetFileName_eq_self, ?_, ?_⟩
  · intro s hext h
    exact hext (h ▸ goExt_targetFileName s)
  · intro fs s msgs htarget _
    simp [compressAndCloseLog, htarget, fsUpdate, readMsgs]

/-- Witness for C10: `"/logs/app.gz"` collides (and its contents are
destroyed by truncation before reading), `"/logs/app.log"` does not. -/
theorem c10_gz_extension_collision_witness :
    targetFileName "/logs/app.gz" = "/logs/app.gz" ∧
    targetFileName "/logs/app.log" ≠ "/logs/app.log" ∧
    (compressAndCloseLog (fsSingle "/logs/app.gz" ["m1"]) "/logs/app.gz"
      (.copyDone false)).1 "/logs/app.gz" = some (.gz []) := by
  obtain ⟨h1, h2, h3⟩ := c10_gz_extension_collision
  exact ⟨h1 "/logs/app.gz" (by decide) (by decide),
         h2 "/logs/app.log" (by decide),
         h3 _ "/logs/app.gz" ["m1"] (by decide) (by decide)⟩

end Gollum
